import Mathlib

/-!
Verification of the openai-streams core.

A shallow embedding of the repository's two core components and the
properties claimed about them:

* `fetchWithBackoff` (src/lib/backoff.ts): the retry/backoff wrapper.
* `EventStream` (src/lib/streaming/streams.ts): the byte-stream-to-event
  state machine (the "Event Framer").

JavaScript strings are modelled as `List Char`; the platform primitive
`JSON.parse` is modelled as a parameter `jparse : List Char → Option Json`
(`none` = the parse throws), together with one concrete executable
instance `jsonParse` used to evaluate the machine on concrete inputs.
The text decoder/encoder pair is the identity at this level: chunks enter
the model already decoded to text.
-/

namespace OpenAIStreams

/-! ## JSON values and JavaScript-semantics helpers -/

/-- A JSON value as produced by `JSON.parse` (numbers restricted to
integers, which covers every payload the library inspects). -/
inductive Json where
  | null : Json
  | bool (b : Bool) : Json
  | num (n : Int) : Json
  | str (s : String) : Json
  | arr (elems : List Json) : Json
  | obj (fields : List (String × Json)) : Json

/-- Own-property lookup on a parsed JSON object. -/
def jlookup (fields : List (String × Json)) (k : String) : Option Json :=
  match fields with
  | [] => none
  | (k', v) :: rest => if k' = k then some v else jlookup rest k

/-- JavaScript property access `v.k` (and `v?.k` on non-null values):
`undefined` (`none`) unless `v` is an object with the property. -/
def jsGet (v : Json) (k : String) : Option Json :=
  match v with
  | .obj fields => jlookup fields k
  | _ => none

/-- JavaScript optional-chaining access `v?.k` where `v` itself may be
`null` (modelled by the outer `Option`). -/
def jsGetOpt (v : Option Json) (k : String) : Option Json :=
  match v with
  | none => none
  | some .null => none
  | some w => jsGet w k

/-- JavaScript truthiness of a parsed JSON value. -/
def jsTruthy (v : Json) : Bool :=
  match v with
  | .null => false
  | .bool b => b
  | .num n => n ≠ 0
  | .str s => s ≠ ""
  | .arr _ => true
  | .obj _ => true

/-- The test `typeof v === "object"` for the JS variable `parsed`, whose value is
`null` when the parse threw (`none`) or produced JSON `null`. In
JavaScript `typeof null` IS `"object"`, and arrays are objects too. -/
def typeofIsObject (parsed : Option Json) : Bool :=
  match parsed with
  | none => true
  | some .null => true
  | some (.obj _) => true
  | some (.arr _) => true
  | some _ => false

/-- The `String(v)` coercion, used only to model `new Error(x)` for a
non-string argument; precise on the primitives that can occur. -/
def jsToDisplay (v : Json) : String :=
  match v with
  | .null => "null"
  | .bool b => if b then "true" else "false"
  | .num n => toString n
  | .str s => s
  | .arr _ => ""
  | .obj _ => "[object Object]"

/-! ## An executable model of the platform `JSON.parse`

The repository calls the JavaScript builtin `JSON.parse`; it is not
repository code, so the state machine below is parameterized by an
arbitrary parse oracle `jparse : List Char → Option Json` (`none` models
the builtin throwing). `jsonParse` is one concrete executable instance —
a recursive-descent parser for the sublanguage of JSON appearing in the
streamed payloads (integer numerals, the common escapes) — used to run
the machine on concrete inputs. -/

/-- The left-brace character, `\x7b`. -/
def lbrace : Char := Char.ofNat 123

/-- The right-brace character, `\x7d`. -/
def rbrace : Char := Char.ofNat 125

/-- JSON insignificant whitespace. -/
def isWs (c : Char) : Bool :=
  c = ' ' || c = '\t' || c = '\n' || c = '\r'

/-- Drop leading JSON whitespace. -/
def skipWs (cs : List Char) : List Char :=
  cs.dropWhile isWs

/-- Decode one character escape inside a JSON string literal. -/
def escapeChar (c : Char) : Option Char :=
  if c = '"' then some '"'
  else if c = '\\' then some '\\'
  else if c = '/' then some '/'
  else if c = 'n' then some '\n'
  else if c = 't' then some '\t'
  else if c = 'r' then some '\r'
  else if c = 'b' then some (Char.ofNat 8)
  else if c = 'f' then some (Char.ofNat 12)
  else none

/-- Parse the remainder of a JSON string literal (the opening quote
already consumed), accumulating decoded characters. -/
def parseStringRest : Nat → List Char → List Char → Option (String × List Char)
  | 0, _, _ => none
  | _ + 1, _, [] => none
  | fuel + 1, acc, c :: rest =>
    if c = '"' then some (String.mk acc.reverse, rest)
    else if c = '\\' then
      match rest with
      | [] => none
      | e :: rest' =>
        match escapeChar e with
        | some d => parseStringRest fuel (d :: acc) rest'
        | none => none
    else parseStringRest fuel (c :: acc) rest

/-- Numeric value of a digit run. -/
def digitsVal (ds : List Char) : Nat :=
  List.foldl (fun n c => n * 10 + (c.toNat - 48)) 0 ds

mutual

/-- Parse one JSON value, returning it with the unconsumed remainder. -/
def parseValue : Nat → List Char → Option (Json × List Char)
  | 0, _ => none
  | fuel + 1, cs =>
    match skipWs cs with
    | [] => none
    | c :: rest =>
      if c = '"' then
        match parseStringRest (rest.length + 1) [] rest with
        | some (s, rest') => some (.str s, rest')
        | none => none
      else if c = '[' then
        match skipWs rest with
        | ']' :: rest' => some (.arr [], rest')
        | _ =>
          match parseElems fuel rest with
          | some (vs, rest') => some (.arr vs, rest')
          | none => none
      else if c = lbrace then
        match skipWs rest with
        | [] => none
        | d :: rest' =>
          if d = rbrace then some (.obj [], rest')
          else
            match parseMembers fuel (skipWs rest) with
            | some (fs, rest'') => some (.obj fs, rest'')
            | none => none
      else if c = 't' then
        if List.isPrefixOf ['r', 'u', 'e'] rest then some (.bool true, rest.drop 3)
        else none
      else if c = 'f' then
        if List.isPrefixOf ['a', 'l', 's', 'e'] rest then some (.bool false, rest.drop 4)
        else none
      else if c = 'n' then
        if List.isPrefixOf ['u', 'l', 'l'] rest then some (.null, rest.drop 3)
        else none
      else if c = '-' then
        match rest.span Char.isDigit with
        | ([], _) => none
        | (ds, rest') => some (.num (-(digitsVal ds : Int)), rest')
      else if c.isDigit then
        match (c :: rest).span Char.isDigit with
        | ([], _) => none
        | (ds, rest') => some (.num (digitsVal ds : Int), rest')
      else none

/-- Parse a non-empty comma-separated list of array elements up to the
closing bracket. -/
def parseElems : Nat → List Char → Option (List Json × List Char)
  | 0, _ => none
  | fuel + 1, cs =>
    match parseValue fuel cs with
    | none => none
    | some (v, rest) =>
      match skipWs rest with
      | ',' :: rest' =>
        match parseElems fuel rest' with
        | some (vs, rest'') => some (v :: vs, rest'')
        | none => none
      | ']' :: rest' => some ([v], rest')
      | _ => none

/-- Parse a non-empty comma-separated list of object members up to the
closing brace. -/
def parseMembers : Nat → List Char → Option (List (String × Json) × List Char)
  | 0, _ => none
  | fuel + 1, cs =>
    match skipWs cs with
    | [] => none
    | c :: rest =>
      if c = '"' then
        match parseStringRest (rest.length + 1) [] rest with
        | none => none
        | some (k, rest') =>
          match skipWs rest' with
          | ':' :: rest'' =>
            (match parseValue fuel rest'' with
             | none => none
             | some (v, rest3) =>
               match skipWs rest3 with
               | ',' :: rest4 =>
                 (match parseMembers fuel rest4 with
                  | some (fs, rest5) => some ((k, v) :: fs, rest5)
                  | none => none)
               | d :: rest4 =>
                 if d = rbrace then some ([(k, v)], rest4) else none
               | [] => none)
          | _ => none
      else none

end

/-- Concrete executable instance of the `JSON.parse` oracle: parse one
value and require only trailing whitespace after it; `none` models the
builtin throwing on malformed input. -/
def jsonParse (cs : List Char) : Option Json :=
  match parseValue (2 * cs.length + 16) cs with
  | some (v, rest) => if skipWs rest = [] then some v else none
  | none => none

/-! ## `fetchWithBackoff` (src/lib/backoff.ts)

The injected `fetch` is modelled as a function from the attempt index to
an outcome: either it resolves to a response (an `ok` flag plus the JSON
body fields the code inspects) or it rejects with an error message. The
body read `await response.json()` is modelled as always succeeding with
the recorded fields; `console.log` is ignored. The run record collects
everything observable: the final result, how many times `fetch` was
invoked, the `onRateLimitReached` hook arguments, and the sleep
durations passed to `setTimeout`. -/

/-- The JSON body fields `fetchWithBackoff` inspects on a non-ok
response: `errorData.type` and `errorData?.error?.code`. -/
structure JsonBody where
  typeField : Option String
  errorCode : Option String
  deriving DecidableEq, Repr

/-- A resolved fetch response: the `ok` flag and its JSON body. -/
structure Response where
  ok : Bool
  body : JsonBody
  deriving DecidableEq, Repr

/-- Outcome of one `await fetch(input, init)`. -/
inductive FetchOutcome where
  | success (r : Response)
  | throwErr (msg : String)
  deriving DecidableEq, Repr

/-- Final result of `fetchWithBackoff`: the returned response, or the
message of the error it throws. -/
inductive BackoffResult where
  | ok (r : Response)
  | thrown (msg : String)
  deriving DecidableEq, Repr

/-- Observable record of one `fetchWithBackoff` run. -/
structure BackoffRun where
  result : BackoffResult
  fetchCalls : Nat
  hooks : List (Nat × Nat)
  sleeps : List Nat
  deriving DecidableEq, Repr

/-- The body of the `try` block for attempt `i`: run `fetch`; on a
non-ok response whose body declares `type: "RATE_LIMIT_REACHED"` or
`error.code: "429"`, throw `RATE_LIMIT_REACHED`; otherwise return the
response (lines 36-45 of backoff.ts). -/
def attemptOutcome (fetchImpl : Nat → FetchOutcome) (i : Nat) : Except String Response :=
  match fetchImpl i with
  | .throwErr msg => .error msg
  | .success r =>
    if !r.ok &&
        (r.body.typeField = some "RATE_LIMIT_REACHED" || r.body.errorCode = some "429") then
      .error "RATE_LIMIT_REACHED"
    else
      .ok r

/-- The `for (let i = 0; i <= maxRetries; i++)` loop of
`fetchWithBackoff` (lines 34-63 of backoff.ts): on a caught
`RATE_LIMIT_REACHED` with `i < maxRetries`, fire the hook with
`{retries: i, delay}`, sleep `delay`, double `delay` and continue; on
any other caught error rethrow; after the loop throw
`"Max retries reached."`. -/
def fetchWithBackoffLoop (fetchImpl : Nat → FetchOutcome) (maxRetries i delay : Nat) :
    BackoffRun :=
  if _h : i ≤ maxRetries then
    match attemptOutcome fetchImpl i with
    | .ok r => ⟨.ok r, 1, [], []⟩
    | .error msg =>
      if msg = "RATE_LIMIT_REACHED" ∧ i < maxRetries then
        let rest := fetchWithBackoffLoop fetchImpl maxRetries (i + 1) (delay * 2)
        ⟨rest.result, rest.fetchCalls + 1, (i, delay) :: rest.hooks, delay :: rest.sleeps⟩
      else ⟨.thrown msg, 1, [], []⟩
  else ⟨.thrown "Max retries reached.", 0, [], []⟩
termination_by maxRetries + 1 - i

/-- The `BackoffOptions` parameter: optional fields model omitted
properties, defaulted by the destructuring in backoff.ts. -/
structure BackoffOptions where
  maxRetries : Option Nat
  delay : Option Nat
  deriving DecidableEq, Repr

/-- The `fetchWithBackoff` entry point (backoff.ts): fail fast when no fetch
implementation is supplied, otherwise run the retry loop from attempt 0
with defaults `maxRetries = 7`, `delay = 500`. -/
def fetchWithBackoff (fetchImpl : Option (Nat → FetchOutcome))
    (backoffOptions : BackoffOptions) : BackoffRun :=
  match fetchImpl with
  | none => ⟨.thrown "No fetch implementation found.", 0, [], []⟩
  | some f =>
    fetchWithBackoffLoop f (backoffOptions.maxRetries.getD 7) 0 (backoffOptions.delay.getD 500)

/-! ## Error taxonomy (src/lib/errors.ts) -/

/-- The `OpenAIErrorType` kinds: the keys of the fixed `OpenAIErrors` map. -/
inductive OpenAIErrorType where
  | MAX_TOKENS
  | UNKNOWN
  deriving DecidableEq, Repr

/-- The fixed `OpenAIErrors` kind-to-message map. -/
def OpenAIErrors : OpenAIErrorType → String
  | .MAX_TOKENS => "Maximum number of tokens reached."
  | .UNKNOWN => "An unknown error occurred."

/-- An `OpenAIError` instance: its kind tag and the message derived from
the kind by the constructor. -/
structure OpenAIError where
  errType : OpenAIErrorType
  message : String
  deriving DecidableEq, Repr

/-- The `OpenAIError` constructor: `message = OpenAIErrors[type]`. -/
def OpenAIError.make (t : OpenAIErrorType) : OpenAIError :=
  ⟨t, OpenAIErrors t⟩

/-- An error value thrown inside (or signalled on) the stream: a plain
`new Error(msg)`, an engine `TypeError`, or a thrown `OpenAIError`. -/
inductive StreamError where
  | js (message : String)
  | typeError (message : String)
  | openAI (e : OpenAIError)
  deriving DecidableEq, Repr

/-! ## The output controller

`EventStream` drives a `ReadableStreamDefaultController` (WHATWG
Streams, default high-water mark 1, default chunk size 1). The whole
processing loop runs inside `start`, so in this model no consumer read
interleaves with it: `desiredSize` is `1 - queue length` while readable,
`0` when closed, `null` when errored. `error` on a readable stream
empties the queue and moves to the errored state (and is a no-op
otherwise); `enqueue` on a non-readable stream throws a `TypeError`; a
rejection of the `start` promise errors the stream the same way
`controller.error` does. The `signals` trace records, in order, every
DATA frame actually enqueued, the DONE of a successful close, and the
ERROR of an errored stream. -/

/-- Controller / stream state. -/
inductive CtrlState where
  | readable
  | closed
  | errored (e : StreamError)
  deriving DecidableEq, Repr

/-- The output controller: its queue of unread chunks and its state. -/
structure Ctrl where
  queue : List (List Char)
  state : CtrlState
  deriving DecidableEq, Repr

/-- The `controller.desiredSize` value: `null` when errored, `0` when closed, and
high-water mark (1) minus the queue size when readable. -/
def desiredSize (c : Ctrl) : Option Int :=
  match c.state with
  | .errored _ => none
  | .closed => some 0
  | .readable => some (1 - (c.queue.length : Int))

/-- JavaScript truthiness of a `number | null` value. -/
def truthyOptInt (v : Option Int) : Bool :=
  match v with
  | none => false
  | some n => n ≠ 0

/-- One observable signal of the framer's output stream. -/
inductive Signal where
  | data (frame : List Char)
  | done
  | error (e : StreamError)
  deriving DecidableEq, Repr

/-- The per-stream mutable context threaded through the machine, minus
the text buffer: the controller, the signal trace, and how many times
the `onDone` hook has run. -/
structure SideState where
  ctrl : Ctrl
  signals : List Signal
  onDoneCalls : Nat
  deriving DecidableEq, Repr

/-- The initial context: readable controller, empty queue, no signals,
hook not yet run. -/
def initialSide : SideState :=
  ⟨⟨[], .readable⟩, [], 0⟩

/-- Model of `controller.close()` (only ever reached while readable): mark closed
and record the DONE signal. -/
def ctrlClose (ss : SideState) : SideState :=
  { ss with
    ctrl := { ss.ctrl with state := .closed },
    signals := ss.signals ++ [.done] }

/-- Model of `controller.error(e)`: on a readable stream, discard the queue and
move to the errored state, recording the ERROR signal; otherwise a
no-op. -/
def ctrlError (ss : SideState) (e : StreamError) : SideState :=
  match ss.ctrl.state with
  | .readable =>
    { ss with
      ctrl := ⟨[], .errored e⟩,
      signals := ss.signals ++ [.error e] }
  | _ => ss

/-- Model of `controller.enqueue(chunk)`: append to the queue and record the DATA
signal while readable; throw a `TypeError` otherwise. -/
def ctrlEnqueue (ss : SideState) (frame : List Char) : Except StreamError SideState :=
  match ss.ctrl.state with
  | .readable =>
    .ok { ss with
          ctrl := { ss.ctrl with queue := ss.ctrl.queue ++ [frame] },
          signals := ss.signals ++ [.data frame] }
  | _ => .error (.typeError "The stream is not in a state that permits enqueue")

/-- The `closeController` helper (streams.ts lines 33-41): close the controller
only if `controller.desiredSize` is truthy, then run `onDone`. -/
def closeController (ss : SideState) : SideState :=
  let ss' := if truthyOptInt (desiredSize ss.ctrl) then ctrlClose ss else ss
  { ss' with onDoneCalls := ss'.onDoneCalls + 1 }

/-- The `bufferIsDone` predicate (streams.ts lines 43-45). -/
def bufferIsDone (buffer : List Char) : Bool :=
  List.isPrefixOf ("data: [DONE]".data) buffer || buffer = ("[DONE]".data)

/-! ## The Event Framer state machine (streams.ts lines 53-130) -/

/-- The `StreamMode` flag. -/
inductive StreamMode where
  | raw
  | tokens
  deriving DecidableEq, Repr

/-- The `OpenAIStreamOptions` record, with `none` modelling an omitted `mode`
property (the `onDone` hook is modelled by the `onDoneCalls` counter,
`onParse` is not used by `EventStream`). -/
structure OpenAIStreamOptions where
  mode : Option StreamMode
  deriving DecidableEq, Repr

/-- Outcome of processing one extracted candidate (one iteration of the
`while (true)` body after boundary extraction). -/
inductive HandleOut where
  | next (ss : SideState)
  | finished (ss : SideState)
  | crashed (e : StreamError) (ss : SideState)
  deriving DecidableEq, Repr

/-- What the `for (const choice of choices)` loop decides. -/
inductive FinishAction where
  | stop
  | maxTokens
  deriving DecidableEq, Repr

/-- The `for (const choice of choices)` scan (streams.ts lines
106-114): the first choice whose `finish_reason === "stop"` wins; a
`finish_reason === "length"` in `"tokens"` mode throws `MAX_TOKENS`. -/
def scanChoices (mode : StreamMode) : List Json → Option FinishAction
  | [] => none
  | c :: rest =>
    match jsGet c "finish_reason" with
    | some (.str s) =>
      if s = "stop" then some .stop
      else if mode = .tokens ∧ s = "length" then some .maxTokens
      else scanChoices mode rest
    | _ => scanChoices mode rest

/-- The `if (parsed?.choices)` block (streams.ts lines 104-115):
`some out` short-circuits the iteration, `none` falls through. A truthy
non-iterable `choices` value makes `for..of` throw a `TypeError`; a
string iterates its characters, none of which has a `finish_reason`. -/
def choicesBlock (mode : StreamMode) (parsed : Option Json) (ss : SideState) :
    Option HandleOut :=
  match jsGetOpt parsed "choices" with
  | none => none
  | some v =>
    if jsTruthy v then
      match v with
      | .arr cs =>
        match scanChoices mode cs with
        | some .stop => some (.finished (closeController ss))
        | some .maxTokens => some (.crashed (.openAI (OpenAIError.make .MAX_TOKENS)) ss)
        | none => none
      | .str _ => none
      | _ => some (.crashed (.typeError "parsed.choices is not iterable") ss)
    else none

/-- Evaluation of `new Error(parsed.error.message)` given the value of
the `error` field: reading `.message` of `null` throws a `TypeError`;
reading it off a non-object yields `undefined`, hence an empty Error
message. -/
def errorFieldMessage (v : Json) : Except StreamError String :=
  match v with
  | .null => .error (.typeError "Cannot read properties of null (reading 'message')")
  | .obj fs =>
    match jlookup fs "message" with
    | some (.str s) => .ok s
    | some w => .ok (jsToDisplay w)
    | none => .ok ""
  | _ => .ok ""

/-- Model of `controller.enqueue(ENCODER.encode(jsonString))` (streams.ts line
122), converting an enqueue `TypeError` into a crash of `start`. -/
def enqueueStep (jsonString : List Char) (ss : SideState) : HandleOut :=
  match ctrlEnqueue ss jsonString with
  | .ok ss' => .next ss'
  | .error e => .crashed e ss

/-- Streams.ts lines 117-123: `parsed.hasOwnProperty("error")` — a
`TypeError` when the JS variable `parsed` is `null` (which is the case
whenever `JSON.parse` threw, or parsed the text `null`) — then the
ERROR signal for an own `error` field, then the unconditional enqueue of
the candidate text. -/
def afterChoices (jsonString : List Char) (parsed : Option Json) (ss : SideState) :
    HandleOut :=
  match parsed with
  | none =>
    .crashed (.typeError "Cannot read properties of null (reading 'hasOwnProperty')") ss
  | some .null =>
    .crashed (.typeError "Cannot read properties of null (reading 'hasOwnProperty')") ss
  | some (.obj fs) =>
    match jlookup fs "error" with
    | some ev =>
      match errorFieldMessage ev with
      | .error e => .crashed e ss
      | .ok m => enqueueStep jsonString (ctrlError ss (.js m))
    | none => enqueueStep jsonString ss
  | some _ => enqueueStep jsonString ss

/-- Streams.ts lines 92-124: attempt `JSON.parse` on the candidate
(`none` models the silent catch leaving `parsed = null`), then — since
`typeof null === "object"` in JavaScript — run the object branch
whenever the JS value of `parsed` is an object, an array, or `null`;
otherwise fall through to the next iteration. -/
def handleParsed (jparse : List Char → Option Json) (mode : StreamMode)
    (jsonString : List Char) (ss : SideState) : HandleOut :=
  let parsed := jparse jsonString
  if typeofIsObject parsed then
    match choicesBlock mode parsed ss with
    | some out => out
    | none => afterChoices jsonString parsed ss
  else .next ss

/-- The search `buffer.indexOf("\n\n")`: position of the first double-newline
boundary. -/
def findBoundary : List Char → Option Nat
  | [] => none
  | [_] => none
  | a :: b :: rest =>
    if a = '\n' ∧ b = '\n' then some 0
    else (findBoundary (b :: rest)).map (· + 1)

/-- A found boundary lies at least two characters before the end. -/
theorem findBoundary_le {cs : List Char} {i : Nat} (h : findBoundary cs = some i) :
    i + 2 ≤ cs.length := by
  induction cs generalizing i with
  | nil => simp [findBoundary] at h
  | cons a rest ih =>
    match rest with
    | [] => simp [findBoundary] at h
    | b :: rest' =>
      rw [findBoundary] at h
      by_cases hab : a = '\n' ∧ b = '\n'
      · simp only [if_pos hab, Option.some.injEq] at h
        subst h
        simp [List.length_cons]
      · simp only [if_neg hab, Option.map_eq_some'] at h
        obtain ⟨j, hj, hji⟩ := h
        have := ih hj
        subst hji
        simp only [List.length_cons] at this ⊢
        omega

/-- JavaScript `String.prototype.trim` whitespace. -/
def isTrimWs (c : Char) : Bool :=
  c = ' ' || c = '\t' || c = '\n' || c = '\r' ||
  c = Char.ofNat 11 || c = Char.ofNat 12 || c = Char.ofNat 160

/-- JavaScript `.trim()`: strip whitespace from both ends. -/
def jsTrim (cs : List Char) : List Char :=
  ((cs.dropWhile isTrimWs).reverse.dropWhile isTrimWs).reverse

/-- Outcome of the inner `while (true)` loop for the current buffer. -/
inductive LoopOut where
  | needMore (buffer : List Char) (ss : SideState)
  | finished (ss : SideState)
  | crashed (e : StreamError) (ss : SideState)
  deriving DecidableEq, Repr

/-- The inner `while (true)` loop (streams.ts lines 75-125): find the
next boundary (re-checking termination when there is none); extract the
candidate `buffer.slice(5, boundary).trim()`; drop through the boundary;
check termination on the remaining buffer before any parsing; then
handle the candidate. -/
def whileLoop (jparse : List Char → Option Json) (mode : StreamMode)
    (buffer : List Char) (ss : SideState) : LoopOut :=
  match hb : findBoundary buffer with
  | none =>
    if bufferIsDone buffer then .finished (closeController ss)
    else .needMore buffer ss
  | some b =>
    let jsonString := jsTrim ((buffer.take b).drop 5)
    let buffer' := buffer.drop (b + 2)
    if bufferIsDone buffer' then .finished (closeController ss)
    else
      match handleParsed jparse mode jsonString ss with
      | .next ss' => whileLoop jparse mode buffer' ss'
      | .finished ss' => .finished ss'
      | .crashed e ss' => .crashed e ss'
termination_by buffer.length
decreasing_by
  have := findBoundary_le hb
  simp [List.length_drop]
  omega

/-- Result of the `for await (const chunk of ...)` loop of `start`. -/
inductive RunEnd where
  | finishedRun (ss : SideState)
  | exhausted (buffer : List Char) (ss : SideState)
  | crashedRun (e : StreamError) (ss : SideState)
  deriving DecidableEq, Repr

/-- The chunk loop (streams.ts lines 65-126): append each decoded chunk
to the buffer, check termination, then run the inner loop; when the
source is exhausted, `start` simply returns — without closing the
controller and without running `onDone`. -/
def mainLoop (jparse : List Char → Option Json) (mode : StreamMode) :
    List (List Char) → List Char → SideState → RunEnd
  | [], buffer, ss => .exhausted buffer ss
  | chunk :: rest, buffer, ss =>
    let buffer' := buffer ++ chunk
    if bufferIsDone buffer' then .finishedRun (closeController ss)
    else
      match whileLoop jparse mode buffer' ss with
      | .needMore buffer'' ss' => mainLoop jparse mode rest buffer'' ss'
      | .finished ss' => .finishedRun ss'
      | .crashed e ss' => .crashedRun e ss'

/-- How one `EventStream` run ended. -/
inductive EndKind where
  | doneReturn
  | sourceExhausted
  | startThrew (e : StreamError)
  deriving DecidableEq, Repr

/-- The observable outcome of one `EventStream` run. -/
structure RunResult where
  side : SideState
  endKind : EndKind
  deriving DecidableEq, Repr

/-- The `EventStream` machine (streams.ts lines 53-130): default the omitted mode to
`"tokens"`, run the chunk loop from an empty buffer, and — when the
`start` body throws — error the stream with the thrown value exactly as
the streams machinery does for a rejected `start` promise. -/
def EventStream (jparse : List Char → Option Json) (options : OpenAIStreamOptions)
    (chunks : List (List Char)) : RunResult :=
  let mode := options.mode.getD .tokens
  match mainLoop jparse mode chunks [] initialSide with
  | .finishedRun ss => ⟨ss, .doneReturn⟩
  | .exhausted _ ss => ⟨ss, .sourceExhausted⟩
  | .crashedRun e ss => ⟨ctrlError ss e, .startThrew e⟩

/-! ## Signal-trace predicates and run invariants -/

/-- DONE and ERROR are the terminal signals. -/
def isTerminal : Signal → Bool
  | .data _ => false
  | .done => true
  | .error _ => true

/-- A trace with no terminal signal at all. -/
def noTerminal (sigs : List Signal) : Prop :=
  ∀ x ∈ sigs, isTerminal x = false

/-- A terminal signal, if any, is the last signal of the trace; in
particular no DATA frame follows DONE or ERROR. -/
def terminalLastOnly (sigs : List Signal) : Prop :=
  ∀ i (h : i < sigs.length), isTerminal sigs[i] = true → i + 1 = sigs.length

/-- Invariant of every in-progress state of the machine: the controller
is still readable, nothing terminal has been signalled, and the `onDone`
hook has not run. -/
def LiveInv (ss : SideState) : Prop :=
  ss.ctrl.state = .readable ∧ noTerminal ss.signals ∧ ss.onDoneCalls = 0

/-- Invariant of a state returned through the DONE path: any terminal
signal is last, and the `onDone` hook has run exactly once. -/
def FinInv (ss : SideState) : Prop :=
  terminalLastOnly ss.signals ∧ ss.onDoneCalls = 1

/-- Invariant of a state abandoned by a crash of `start` (before the
streams machinery errors the controller): any terminal signal is last,
the hook never ran, and a still-readable controller has a terminal-free
trace. -/
def CrashInv (ss : SideState) : Prop :=
  terminalLastOnly ss.signals ∧ ss.onDoneCalls = 0 ∧
    (ss.ctrl.state = .readable → noTerminal ss.signals)

/-! ## Lemmas: the backoff loop under a permanent rate-limit -/

/-- Closed form of the retry loop when every remaining attempt hits the
rate-limit condition: the rethrown error is `RATE_LIMIT_REACHED` (the
post-loop `"Max retries reached."` throw is unreachable), one fetch per
attempt, and hook/sleep records follow the doubling sequence. -/
theorem fetchWithBackoffLoop_rateLimited (f : Nat → FetchOutcome) (maxRetries : Nat) :
    ∀ n i delay, maxRetries - i = n → i ≤ maxRetries →
    (∀ j, i ≤ j → j ≤ maxRetries → attemptOutcome f j = .error "RATE_LIMIT_REACHED") →
    fetchWithBackoffLoop f maxRetries i delay =
      ⟨.thrown "RATE_LIMIT_REACHED", maxRetries + 1 - i,
       (List.range (maxRetries - i)).map (fun k => (i + k, delay * 2 ^ k)),
       (List.range (maxRetries - i)).map (fun k => delay * 2 ^ k)⟩ := by
  intro n
  induction n with
  | zero =>
    intro i delay hn hle hf
    have hie : i = maxRetries := by omega
    rw [fetchWithBackoffLoop]
    rw [hf i (le_refl i) hle]
    have hnlt : ¬((("RATE_LIMIT_REACHED" : String) = "RATE_LIMIT_REACHED") ∧ i < maxRetries) := by
      simp [hie]
    simp only [dif_pos hle, if_neg hnlt]
    simp [hie]
  | succ n ih =>
    intro i delay hn hle hf
    have hlt : i < maxRetries := by omega
    have hstep : fetchWithBackoffLoop f maxRetries i delay =
        (let rest := fetchWithBackoffLoop f maxRetries (i + 1) (delay * 2)
         ⟨rest.result, rest.fetchCalls + 1, (i, delay) :: rest.hooks, delay :: rest.sleeps⟩) := by
      rw [fetchWithBackoffLoop, hf i (le_refl i) hle, dif_pos hle]
      simp [hlt]
    rw [hstep, ih (i + 1) (delay * 2) (by omega) (by omega)
      (fun j hj1 hj2 => hf j (by omega) hj2)]
    have hr : maxRetries - i = (maxRetries - (i + 1)) + 1 := by omega
    rw [hr, List.range_succ_eq_map]
    simp only [List.map_cons, List.map_map, BackoffRun.mk.injEq]
    refine ⟨by trivial, by omega, ?_, ?_⟩
    · simp only [pow_zero, Nat.mul_one, Nat.add_zero, List.cons.injEq]
      refine ⟨by trivial, ?_⟩
      apply List.map_congr_left
      intro a _
      simp only [Function.comp_apply, Nat.succ_eq_add_one, Prod.mk.injEq, pow_succ]
      exact ⟨by omega, by ring⟩
    · simp only [pow_zero, Nat.mul_one, List.cons.injEq]
      refine ⟨by trivial, ?_⟩
      apply List.map_congr_left
      intro a _
      simp only [Function.comp_apply, Nat.succ_eq_add_one, pow_succ]
      ring

/-! ## Claims C3, C7, C8: the Backoff Executor -/

/-- C3 (code_bug): under the policy `maxRetries = 2, delay = 10` and a
permanently rate-limited response (`ok = false`, body
`\x7b"error":\x7b"code":"429"\x7d\x7d`), `fetchWithBackoff` does retry
twice with delays 10ms and 20ms, but then fails by rethrowing
`Error("RATE_LIMIT_REACHED")` — not the `MaxRetriesExceeded` error
`"Max retries reached."`, whose `throw` after the loop is unreachable. -/
theorem fetchWithBackoff_exhaustion_rethrows_rate_limit_error :
    fetchWithBackoff (some fun _ => .success ⟨false, ⟨none, some "429"⟩⟩) ⟨some 2, some 10⟩ =
      ⟨.thrown "RATE_LIMIT_REACHED", 3, [(0, 10), (1, 20)], [10, 20]⟩ ∧
    ("RATE_LIMIT_REACHED" : String) ≠ "Max retries reached." := by
  constructor
  · simp [fetchWithBackoff, fetchWithBackoffLoop, attemptOutcome]
  · decide

/-- C7: with `maxRetries = N`, a permanently rate-limited operation is
fetched exactly `N + 1` times and the `onRateLimitReached` hook fires
exactly `N` times before the final failure. -/
theorem fetchWithBackoff_rateLimited_call_counts (f : Nat → FetchOutcome) (N d : Nat)
    (hf : ∀ j, j ≤ N → attemptOutcome f j = .error "RATE_LIMIT_REACHED") :
    (fetchWithBackoff (some f) ⟨some N, some d⟩).fetchCalls = N + 1 ∧
    (fetchWithBackoff (some f) ⟨some N, some d⟩).hooks.length = N ∧
    (fetchWithBackoff (some f) ⟨some N, some d⟩).result = .thrown "RATE_LIMIT_REACHED" := by
  have h := fetchWithBackoffLoop_rateLimited f N (N - 0) 0 d rfl (Nat.zero_le N)
    (fun j _ hj2 => hf j hj2)
  simp only [fetchWithBackoff, Option.getD_some]
  rw [h]
  simp

/-- C7 witness: `maxRetries = 2, delay = 10` with every response
rate-limited: 3 fetches, 2 hook invocations, final failure. -/
theorem fetchWithBackoff_rateLimited_call_counts_witness :
    (fetchWithBackoff (some fun _ => .success ⟨false, ⟨some "RATE_LIMIT_REACHED", none⟩⟩)
        ⟨some 2, some 10⟩).fetchCalls = 3 ∧
    (fetchWithBackoff (some fun _ => .success ⟨false, ⟨some "RATE_LIMIT_REACHED", none⟩⟩)
        ⟨some 2, some 10⟩).hooks.length = 2 ∧
    (fetchWithBackoff (some fun _ => .success ⟨false, ⟨some "RATE_LIMIT_REACHED", none⟩⟩)
        ⟨some 2, some 10⟩).result = .thrown "RATE_LIMIT_REACHED" :=
  fetchWithBackoff_rateLimited_call_counts
    (fun _ => .success ⟨false, ⟨some "RATE_LIMIT_REACHED", none⟩⟩) 2 10
    (fun _ _ => by simp [attemptOutcome])

/-- C8: with initial delay `d` and `maxRetries = N`, a permanently
rate-limited run sleeps exactly `d, 2d, 4d, ..., d * 2 ^ (N - 1)`, each
delay double the previous one. -/
theorem fetchWithBackoff_delay_doubling (f : Nat → FetchOutcome) (N d : Nat)
    (hf : ∀ j, j ≤ N → attemptOutcome f j = .error "RATE_LIMIT_REACHED") :
    (fetchWithBackoff (some f) ⟨some N, some d⟩).sleeps =
      (List.range N).map (fun k => d * 2 ^ k) ∧
    ∀ k, k + 1 < (fetchWithBackoff (some f) ⟨some N, some d⟩).sleeps.length →
      (fetchWithBackoff (some f) ⟨some N, some d⟩).sleeps.getD (k + 1) 0 =
        2 * (fetchWithBackoff (some f) ⟨some N, some d⟩).sleeps.getD k 0 := by
  have h := fetchWithBackoffLoop_rateLimited f N (N - 0) 0 d rfl (Nat.zero_le N)
    (fun j _ hj2 => hf j hj2)
  simp only [fetchWithBackoff, Option.getD_some]
  rw [h]
  simp only [Nat.sub_zero, List.length_map, List.length_range]
  refine ⟨by trivial, ?_⟩
  intro k h1
  rw [List.getD_eq_getElem?_getD, List.getD_eq_getElem?_getD]
  rw [List.getElem?_map, List.getElem?_map]
  rw [List.getElem?_range (by omega : k + 1 < N), List.getElem?_range (by omega : k < N)]
  simp only [Option.map_some', Option.getD_some]
  rw [pow_succ]
  ring

/-- C8 witness: `maxRetries = 3, delay = 5` with every response
rate-limited sleeps exactly `[5, 10, 20]`. -/
theorem fetchWithBackoff_delay_doubling_witness :
    (fetchWithBackoff (some fun _ => .success ⟨false, ⟨some "RATE_LIMIT_REACHED", none⟩⟩)
        ⟨some 3, some 5⟩).sleeps = [5, 10, 20] := by
  rw [(fetchWithBackoff_delay_doubling
    (fun _ => .success ⟨false, ⟨some "RATE_LIMIT_REACHED", none⟩⟩) 3 5
    (fun _ _ => by simp [attemptOutcome])).1]
  rfl

/-! ## Claims C1, C2: handling of an unparsable candidate -/

/-- C1 (code_bug): a candidate that fails `JSON.parse` does not lead to
a silent skip. The `catch` leaves `parsed = null`, `typeof null` is
`"object"`, so the guard is entered and `parsed.hasOwnProperty("error")`
throws a `TypeError`, erroring the stream — on the single chunk
`data: \x7b"a\n\n` the run ends with the stream failed, an ERROR signal
emitted, and processing stopped. -/
theorem eventStream_crashes_on_unparsable_candidate :
    EventStream jsonParse ⟨some .tokens⟩ [("data: \x7b\"a\n\n").data] =
      ⟨⟨⟨[], .errored (.typeError "Cannot read properties of null (reading 'hasOwnProperty')")⟩,
        [.error (.typeError "Cannot read properties of null (reading 'hasOwnProperty')")], 0⟩,
       .startThrew (.typeError "Cannot read properties of null (reading 'hasOwnProperty')")⟩ := by
  simp [EventStream, mainLoop, whileLoop, bufferIsDone, findBoundary, initialSide,
    handleParsed, jsonParse, parseValue, parseStringRest, parseMembers, parseElems,
    skipWs, isWs, jsTrim, isTrimWs, typeofIsObject, choicesBlock, jsGetOpt, jsGet,
    afterChoices, enqueueStep, ctrlEnqueue, ctrlError, closeController, lbrace, rbrace,
    escapeChar]

/-- C2 (code_bug): the bytes of an unparsable candidate are sliced out
of the buffer before the parse attempt and nothing re-queues them; with
the candidate `\x7b"a` followed by a chunk carrying the complete,
parseable payload `\x7b"a":1\x7d`, the run crashes on the first
candidate, no DATA frame is ever emitted, and the completed payload —
shown parseable by the second conjunct — is never parsed or emitted. -/
theorem eventStream_drops_unparsable_candidate_payload :
    EventStream jsonParse ⟨some .tokens⟩
        [("data: \x7b\"a\n\n").data, ("data: \x7b\"a\":1\x7d\n\n").data] =
      ⟨⟨⟨[], .errored (.typeError "Cannot read properties of null (reading 'hasOwnProperty')")⟩,
        [.error (.typeError "Cannot read properties of null (reading 'hasOwnProperty')")], 0⟩,
       .startThrew (.typeError "Cannot read properties of null (reading 'hasOwnProperty')")⟩ ∧
    jsonParse (("\x7b\"a\":1\x7d").data) = some (.obj [("a", .num 1)]) := by
  constructor
  · simp [EventStream, mainLoop, whileLoop, bufferIsDone, findBoundary, initialSide,
      handleParsed, jsonParse, parseValue, parseStringRest, parseMembers, parseElems,
      skipWs, isWs, jsTrim, isTrimWs, typeofIsObject, choicesBlock, jsGetOpt, jsGet,
      afterChoices, enqueueStep, ctrlEnqueue, ctrlError, closeController, lbrace, rbrace,
      escapeChar]
  · rfl

/-! ## Claim C4: termination-sentinel detection -/

/-- C4 counterexample: the buffer `[DONE]!` begins with the literal
sentinel `[DONE]`, yet the framer signals nothing: `bufferIsDone`
requires the prefix `data: [DONE]` or exact equality with `[DONE]`, so
the run ends source-exhausted with no DONE, no close and no hook. -/
theorem eventStream_ignores_bare_done_prefix :
    List.isPrefixOf (("[DONE]").data) (("[DONE]!").data) = true ∧
    EventStream jsonParse ⟨some .tokens⟩ [("[DONE]!").data] =
      ⟨initialSide, .sourceExhausted⟩ := by
  constructor
  · decide
  · simp [EventStream, mainLoop, whileLoop, bufferIsDone, findBoundary, initialSide]

/-- C4 amended: at each of the three check sites — when no boundary is
found, on the remaining buffer right after a boundary extraction, and on
the buffer right after a chunk is appended — a buffer that starts with
`data: [DONE]` or equals `[DONE]` makes the framer take the DONE path
(hook plus guarded close) and end the sequence. The conclusion holds for
every parse oracle `jparse`, i.e. the check precedes any JSON parsing of
that iteration's candidate. -/
theorem eventStream_done_sentinel_checks (jparse : List Char → Option Json)
    (mode : StreamMode) (buffer : List Char) (ss : SideState) :
    (findBoundary buffer = none → bufferIsDone buffer = true →
      whileLoop jparse mode buffer ss = .finished (closeController ss)) ∧
    (∀ b, findBoundary buffer = some b → bufferIsDone (buffer.drop (b + 2)) = true →
      whileLoop jparse mode buffer ss = .finished (closeController ss)) ∧
    (∀ chunk rest, bufferIsDone (buffer ++ chunk) = true →
      mainLoop jparse mode (chunk :: rest) buffer ss = .finishedRun (closeController ss)) := by
  refine ⟨?_, ?_, ?_⟩
  · intro h1 h2
    rw [whileLoop]
    split <;> simp_all
  · intro b h1 h2
    rw [whileLoop]
    split <;> simp_all
  · intro chunk rest h1
    rw [mainLoop]
    simp [h1]

/-- C4 witness: the chunk `data: [DONE]` is detected at the
append-site check and the machine takes the DONE path at once. -/
theorem eventStream_done_sentinel_checks_witness :
    mainLoop jsonParse .tokens [("data: [DONE]").data] [] initialSide =
      .finishedRun (closeController initialSide) :=
  (eventStream_done_sentinel_checks jsonParse .tokens [] initialSide).2.2
    (("data: [DONE]").data) [] (by decide)

/-! ## Lemmas: the finish_reason scan -/

/-- If some choice carries `finish_reason: "stop"` and (in tokens mode)
no choice carries `finish_reason: "length"`, the scan decides stop. -/
theorem scanChoices_finds_stop (mode : StreamMode) (cs : List Json)
    (h1 : ∃ c ∈ cs, jsGet c "finish_reason" = some (.str "stop"))
    (h2 : ∀ c ∈ cs, mode = .tokens → ¬jsGet c "finish_reason" = some (.str "length")) :
    scanChoices mode cs = some .stop := by
  induction cs with
  | nil => simp at h1
  | cons c rest ih =>
    rcases h1 with ⟨c0, hc0, hfr⟩
    rcases List.mem_cons.mp hc0 with heq | hc0tail
    · subst heq
      rw [scanChoices, hfr]
      simp
    · have htail : scanChoices mode rest = some .stop :=
        ih ⟨c0, hc0tail, hfr⟩ (fun d hd hm => h2 d (List.mem_cons_of_mem _ hd) hm)
      rw [scanChoices]
      cases hg : jsGet c "finish_reason" with
      | none => exact htail
      | some v =>
        cases v with
        | str s =>
          by_cases hs : s = "stop"
          · simp [hs]
          · have hnl : ¬(mode = .tokens ∧ s = "length") := by
              rintro ⟨hm, rfl⟩
              exact h2 c (List.mem_cons_self c rest) hm hg
            simp only [if_neg hs, if_neg hnl]
            exact htail
        | null => exact htail
        | bool b => exact htail
        | num n => exact htail
        | arr xs => exact htail
        | obj fs => exact htail

/-- If some choice carries `finish_reason: "length"` and no choice
carries `finish_reason: "stop"`, the tokens-mode scan decides the
token-limit crash. -/
theorem scanChoices_finds_length (cs : List Json)
    (h1 : ∃ c ∈ cs, jsGet c "finish_reason" = some (.str "length"))
    (h2 : ∀ c ∈ cs, ¬jsGet c "finish_reason" = some (.str "stop")) :
    scanChoices .tokens cs = some .maxTokens := by
  induction cs with
  | nil => simp at h1
  | cons c rest ih =>
    rcases h1 with ⟨c0, hc0, hfr⟩
    rcases List.mem_cons.mp hc0 with heq | hc0tail
    · subst heq
      rw [scanChoices, hfr]
      have : ¬(("length" : String) = "stop") := by decide
      simp [this]
    · have htail : scanChoices .tokens rest = some .maxTokens :=
        ih ⟨c0, hc0tail, hfr⟩ (fun d hd => h2 d (List.mem_cons_of_mem _ hd))
      rw [scanChoices]
      cases hg : jsGet c "finish_reason" with
      | none => exact htail
      | some v =>
        cases v with
        | str s =>
          have hs : ¬s = "stop" := by
            intro hscontr
            exact h2 c (List.mem_cons_self c rest) (by rw [hg, hscontr])
          by_cases hl : s = "length"
          · simp [hs, hl]
          · simp only [if_neg hs, hl, and_false, if_false]
            exact htail
        | null => exact htail
        | bool b => exact htail
        | num n => exact htail
        | arr xs => exact htail
        | obj fs => exact htail

/-- An event object with a choices array in which some choice stops the
stream makes `handleParsed` take the DONE path. -/
theorem handleParsed_stop_finishes (jparse : List Char → Option Json)
    (mode : StreamMode) (s : List Char) (fields : List (String × Json))
    (cs : List Json) (ss : SideState)
    (hp : jparse s = some (.obj fields))
    (hc : jlookup fields "choices" = some (.arr cs))
    (h1 : ∃ c ∈ cs, jsGet c "finish_reason" = some (.str "stop"))
    (h2 : ∀ c ∈ cs, mode = .tokens → ¬jsGet c "finish_reason" = some (.str "length")) :
    handleParsed jparse mode s ss = .finished (closeController ss) := by
  have hscan := scanChoices_finds_stop mode cs h1 h2
  simp [handleParsed, hp, typeofIsObject, choicesBlock, jsGetOpt, jsGet, hc, jsTruthy, hscan]

/-- An event object with a choices array in which some choice exceeds
the token limit (and none stops) makes `handleParsed` crash the stream
with the `MAX_TOKENS` `OpenAIError` in tokens mode. -/
theorem handleParsed_length_crashes (jparse : List Char → Option Json)
    (s : List Char) (fields : List (String × Json))
    (cs : List Json) (ss : SideState)
    (hp : jparse s = some (.obj fields))
    (hc : jlookup fields "choices" = some (.arr cs))
    (h1 : ∃ c ∈ cs, jsGet c "finish_reason" = some (.str "length"))
    (h2 : ∀ c ∈ cs, ¬jsGet c "finish_reason" = some (.str "stop")) :
    handleParsed jparse .tokens s ss =
      .crashed (.openAI (OpenAIError.make .MAX_TOKENS)) ss := by
  have hscan := scanChoices_finds_length cs h1 h2
  simp [handleParsed, hp, typeofIsObject, choicesBlock, jsGetOpt, jsGet, hc, jsTruthy, hscan]

/-! ## Claim C5: finish_reason "stop" and "length" -/

/-- C5: for a successfully parsed event with a choices array, a choice
with `finish_reason: "stop"` (and, in tokens mode, no conflicting
`"length"` choice) sends the framer down the DONE path — hook plus
guarded close, ending processing — while in tokens mode a choice with
`finish_reason: "length"` (and no `"stop"` choice) crashes the stream
terminally with the `MAX_TOKENS` error kind, the state otherwise
untouched: the event's own payload is not enqueued and no further frame
can follow. -/
theorem eventStream_finish_reason_terminal (jparse : List Char → Option Json)
    (mode : StreamMode) (s : List Char) (fields : List (String × Json))
    (cs : List Json) (ss : SideState)
    (hp : jparse s = some (.obj fields))
    (hc : jlookup fields "choices" = some (.arr cs)) :
    ((∃ c ∈ cs, jsGet c "finish_reason" = some (.str "stop")) →
     (∀ c ∈ cs, mode = .tokens → ¬jsGet c "finish_reason" = some (.str "length")) →
     handleParsed jparse mode s ss = .finished (closeController ss)) ∧
    (mode = .tokens →
     (∃ c ∈ cs, jsGet c "finish_reason" = some (.str "length")) →
     (∀ c ∈ cs, ¬jsGet c "finish_reason" = some (.str "stop")) →
     handleParsed jparse mode s ss =
       .crashed (.openAI (OpenAIError.make .MAX_TOKENS)) ss) := by
  constructor
  · intro h1 h2
    exact handleParsed_stop_finishes jparse mode s fields cs ss hp hc h1 h2
  · intro hm h1 h2
    subst hm
    exact handleParsed_length_crashes jparse s fields cs ss hp hc h1 h2

/-- C5 witness: a concrete parsed event whose single choice carries
`finish_reason: "stop"` takes the DONE path. -/
theorem eventStream_finish_reason_terminal_witness :
    handleParsed
        (fun _ => some (Json.obj
          [("choices", Json.arr [Json.obj [("finish_reason", Json.str "stop")]])]))
        .tokens (("x").data) initialSide =
      .finished (closeController initialSide) :=
  (eventStream_finish_reason_terminal
      (fun _ => some (Json.obj
        [("choices", Json.arr [Json.obj [("finish_reason", Json.str "stop")]])]))
      .tokens (("x").data)
      [("choices", Json.arr [Json.obj [("finish_reason", Json.str "stop")]])]
      [Json.obj [("finish_reason", Json.str "stop")]]
      initialSide rfl rfl).1
    ⟨Json.obj [("finish_reason", Json.str "stop")], by simp, rfl⟩
    (by
      intro c hcmem hm
      simp at hcmem
      subst hcmem
      simp [jsGet, jlookup])

/-! ## Claim C10: the mode flag defaults to "tokens" -/

/-- C10: with the `mode` option omitted, `EventStream` behaves exactly
as with `mode: "tokens"`; in particular a parsed event whose choice has
`finish_reason: "length"` crashes the stream with the `MAX_TOKENS`
error even though the caller never asked for token mode. -/
theorem eventStream_mode_defaults_to_tokens (jparse : List Char → Option Json)
    (chunks : List (List Char)) (options : OpenAIStreamOptions)
    (hm : options.mode = none) :
    options.mode.getD .tokens = .tokens ∧
    EventStream jparse options chunks = EventStream jparse ⟨some .tokens⟩ chunks ∧
    (∀ s fields cs ss,
      jparse s = some (.obj fields) →
      jlookup fields "choices" = some (.arr cs) →
      (∃ c ∈ cs, jsGet c "finish_reason" = some (.str "length")) →
      (∀ c ∈ cs, ¬jsGet c "finish_reason" = some (.str "stop")) →
      handleParsed jparse (options.mode.getD .tokens) s ss =
        .crashed (.openAI (OpenAIError.make .MAX_TOKENS)) ss) := by
  refine ⟨by rw [hm]; rfl, ?_, ?_⟩
  · cases options with
    | mk m =>
      simp only at hm
      subst hm
      rfl
  · intro s fields cs ss hp hc h1 h2
    rw [hm]
    exact handleParsed_length_crashes jparse s fields cs ss hp hc h1 h2

/-- C10 witness: omitting the mode yields the same run as passing
`"tokens"` explicitly on a concrete stream. -/
theorem eventStream_mode_defaults_to_tokens_witness :
    EventStream jsonParse ⟨none⟩ [("data: [DONE]").data] =
      EventStream jsonParse ⟨some .tokens⟩ [("data: [DONE]").data] :=
  (eventStream_mode_defaults_to_tokens jsonParse [("data: [DONE]").data] ⟨none⟩ rfl).2.1

/-! ## Lemmas: signal traces -/

/-- The empty trace has no terminal. -/
theorem noTerminal_nil : noTerminal [] := by
  intro x hx
  cases hx

/-- Appending a DATA frame keeps a trace terminal-free. -/
theorem noTerminal_append_data (sigs : List Signal) (f : List Char)
    (h : noTerminal sigs) : noTerminal (sigs ++ [.data f]) := by
  intro x hx
  rcases List.mem_append.mp hx with h1 | h2
  · exact h x h1
  · simp at h2
    subst h2
    rfl

/-- A terminal-free trace trivially has terminals only at the end. -/
theorem terminalLastOnly_of_noTerminal (sigs : List Signal) (h : noTerminal sigs) :
    terminalLastOnly sigs := by
  intro i hi hterm
  have hmem : sigs[i] ∈ sigs := List.getElem_mem hi
  rw [h _ hmem] at hterm
  cases hterm

/-- Appending one signal (terminal or not) to a terminal-free trace
leaves terminals only in last position. -/
theorem terminalLastOnly_append (sigs : List Signal) (x : Signal)
    (h : noTerminal sigs) : terminalLastOnly (sigs ++ [x]) := by
  intro i hi hterm
  rw [List.length_append, List.length_singleton] at hi ⊢
  by_contra hne
  have hilt : i < sigs.length := by omega
  rw [List.getElem_append_left hilt] at hterm
  have hmem : sigs[i] ∈ sigs := List.getElem_mem hilt
  rw [h _ hmem] at hterm
  cases hterm

/-! ## Lemmas: shapes of one candidate-handling step -/

/-- Everything `choicesBlock` can decide: fall through, the DONE path,
or a crash that leaves the context untouched. -/
theorem choicesBlock_shape (mode : StreamMode) (parsed : Option Json) (ss : SideState) :
    choicesBlock mode parsed ss = none ∨
    choicesBlock mode parsed ss = some (.finished (closeController ss)) ∨
    (∃ e, choicesBlock mode parsed ss = some (.crashed e ss)) := by
  unfold choicesBlock
  cases hv : jsGetOpt parsed "choices" with
  | none => exact Or.inl rfl
  | some v =>
    by_cases ht : jsTruthy v = true
    · simp only [ht, if_true]
      cases v with
      | arr cs =>
        dsimp only
        cases hsc : scanChoices mode cs with
        | none => exact Or.inl rfl
        | some fa =>
          cases fa with
          | stop => exact Or.inr (Or.inl rfl)
          | maxTokens => exact Or.inr (Or.inr ⟨_, rfl⟩)
      | str s => exact Or.inl rfl
      | null => exact Or.inr (Or.inr ⟨_, rfl⟩)
      | bool b => exact Or.inr (Or.inr ⟨_, rfl⟩)
      | num n => exact Or.inr (Or.inr ⟨_, rfl⟩)
      | obj fs => exact Or.inr (Or.inr ⟨_, rfl⟩)
    · simp only [Bool.not_eq_true] at ht
      simp only [ht, Bool.false_eq_true, if_false]
      exact Or.inl trivial

/-- Everything one candidate-handling step can do to the context: leave
it alone, enqueue the candidate as a DATA frame, take the DONE path, or
crash — either leaving the context untouched or after signalling the
upstream-declared ERROR. -/
theorem handleParsed_shape (jparse : List Char → Option Json) (mode : StreamMode)
    (s : List Char) (ss : SideState) :
    handleParsed jparse mode s ss = .next ss ∨
    (ss.ctrl.state = .readable ∧
      handleParsed jparse mode s ss = .next
        { ss with ctrl := { ss.ctrl with queue := ss.ctrl.queue ++ [s] },
                  signals := ss.signals ++ [.data s] }) ∨
    handleParsed jparse mode s ss = .finished (closeController ss) ∨
    (∃ e, handleParsed jparse mode s ss = .crashed e ss) ∨
    (∃ e m, handleParsed jparse mode s ss = .crashed e (ctrlError ss (.js m))) := by
  unfold handleParsed
  by_cases hto : typeofIsObject (jparse s) = true
  case neg =>
    simp only [Bool.not_eq_true] at hto
    simp only [hto, Bool.false_eq_true, if_false]
    exact Or.inl trivial
  case pos =>
  simp only [hto, if_true]
  rcases choicesBlock_shape mode (jparse s) ss with hcb | hcb | ⟨e, hcb⟩
  · rw [hcb]
    dsimp only
    unfold afterChoices
    cases hp : jparse s with
    | none => exact Or.inr (Or.inr (Or.inr (Or.inl ⟨_, rfl⟩)))
    | some v =>
      cases v with
      | null => exact Or.inr (Or.inr (Or.inr (Or.inl ⟨_, rfl⟩)))
      | obj fs =>
        dsimp only
        cases he : jlookup fs "error" with
        | none =>
          dsimp only
          unfold enqueueStep ctrlEnqueue
          cases hst : ss.ctrl.state with
          | readable =>
            dsimp only
            rw [hst]
            exact Or.inr (Or.inl ⟨rfl, rfl⟩)
          | closed =>
            dsimp only
            exact Or.inr (Or.inr (Or.inr (Or.inl ⟨_, rfl⟩)))
          | errored e0 =>
            dsimp only
            exact Or.inr (Or.inr (Or.inr (Or.inl ⟨_, rfl⟩)))
        | some ev =>
          dsimp only
          cases hm : errorFieldMessage ev with
          | error e0 => exact Or.inr (Or.inr (Or.inr (Or.inl ⟨_, rfl⟩)))
          | ok m =>
            dsimp only
            refine Or.inr (Or.inr (Or.inr (Or.inr
              ⟨.typeError "The stream is not in a state that permits enqueue", m, ?_⟩)))
            unfold enqueueStep ctrlEnqueue ctrlError
            cases hst : ss.ctrl.state <;> simp [hst]
      | arr xs =>
        dsimp only
        unfold enqueueStep ctrlEnqueue
        cases hst : ss.ctrl.state with
        | readable =>
          dsimp only
          rw [hst]
          exact Or.inr (Or.inl ⟨rfl, rfl⟩)
        | closed =>
          dsimp only
          exact Or.inr (Or.inr (Or.inr (Or.inl ⟨_, rfl⟩)))
        | errored e0 =>
          dsimp only
          exact Or.inr (Or.inr (Or.inr (Or.inl ⟨_, rfl⟩)))
      | bool b =>
        rw [hp] at hto
        simp [typeofIsObject] at hto
      | num n =>
        rw [hp] at hto
        simp [typeofIsObject] at hto
      | str t =>
        rw [hp] at hto
        simp [typeofIsObject] at hto
  · rw [hcb]
    dsimp only
    exact Or.inr (Or.inr (Or.inl rfl))
  · rw [hcb]
    dsimp only
    exact Or.inr (Or.inr (Or.inr (Or.inl ⟨e, rfl⟩)))

/-! ## Lemmas: controller operations -/

/-- Effect of `controller.error` on a readable stream: queue discarded, errored
state, ERROR signal recorded. -/
theorem ctrlError_readable (ss : SideState) (e : StreamError)
    (hr : ss.ctrl.state = .readable) :
    ctrlError ss e =
      { ss with ctrl := ⟨[], .errored e⟩,
                signals := ss.signals ++ [.error e] } := by
  unfold ctrlError
  split <;> simp_all

/-- Effect of `controller.error` on a non-readable stream: a no-op. -/
theorem ctrlError_no_op (ss : SideState) (e : StreamError)
    (h : ¬ss.ctrl.state = .readable) : ctrlError ss e = ss := by
  unfold ctrlError
  split <;> simp_all

/-- The `controller.error` operation never touches the completion-hook counter. -/
theorem ctrlError_onDoneCalls (ss : SideState) (e : StreamError) :
    (ctrlError ss e).onDoneCalls = ss.onDoneCalls := by
  unfold ctrlError
  split <;> rfl

/-- The guarded close: the controller ends up closed exactly when
`desiredSize` was truthy or it already was closed. -/
theorem closeController_closed_iff (ss : SideState) :
    (closeController ss).ctrl.state = .closed ↔
      truthyOptInt (desiredSize ss.ctrl) = true ∨ ss.ctrl.state = .closed := by
  unfold closeController ctrlClose
  by_cases hg : truthyOptInt (desiredSize ss.ctrl) = true
  · simp [hg]
  · simp only [Bool.not_eq_true] at hg
    simp [hg]

/-- The `closeController` path turns a live context into a DONE-path
context: terminals only at the end, hook run exactly once. -/
theorem closeController_finInv (ss : SideState) (h : LiveInv ss) :
    FinInv (closeController ss) := by
  obtain ⟨hr, hnt, hcalls⟩ := h
  unfold closeController
  by_cases hg : truthyOptInt (desiredSize ss.ctrl) = true
  · simp only [hg, if_true]
    exact ⟨terminalLastOnly_append _ _ hnt, by simp [ctrlClose, hcalls]⟩
  · simp only [Bool.not_eq_true] at hg
    simp only [hg, Bool.false_eq_true, if_false]
    exact ⟨terminalLastOnly_of_noTerminal _ hnt, by simp [hcalls]⟩

/-! ## Lemmas: run invariants through the machine -/

/-- One candidate-handling step preserves the run invariants: a
continuing step stays live, the DONE path yields a DONE-path context, a
crash yields a crash context. -/
theorem handleParsed_inv (jparse : List Char → Option Json) (mode : StreamMode)
    (s : List Char) (ss : SideState) (h : LiveInv ss) :
    (∀ ss2, handleParsed jparse mode s ss = .next ss2 → LiveInv ss2) ∧
    (∀ ss2, handleParsed jparse mode s ss = .finished ss2 → FinInv ss2) ∧
    (∀ e ss2, handleParsed jparse mode s ss = .crashed e ss2 → CrashInv ss2) := by
  obtain ⟨hr, hnt, hcalls⟩ := h
  rcases handleParsed_shape jparse mode s ss with hs1 | ⟨hrr, hs1⟩ | hs1 | ⟨e0, hs1⟩ | ⟨e0, m, hs1⟩
  · refine ⟨?_, ?_, ?_⟩
    · intro ss2 heq
      rw [hs1] at heq
      injection heq with h2
      subst h2
      exact ⟨hr, hnt, hcalls⟩
    · intro ss2 heq
      rw [hs1] at heq
      simp at heq
    · intro e ss2 heq
      rw [hs1] at heq
      simp at heq
  · refine ⟨?_, ?_, ?_⟩
    · intro ss2 heq
      rw [hs1] at heq
      injection heq with h2
      subst h2
      exact ⟨hr, noTerminal_append_data _ _ hnt, hcalls⟩
    · intro ss2 heq
      rw [hs1] at heq
      simp at heq
    · intro e ss2 heq
      rw [hs1] at heq
      simp at heq
  · refine ⟨?_, ?_, ?_⟩
    · intro ss2 heq
      rw [hs1] at heq
      simp at heq
    · intro ss2 heq
      rw [hs1] at heq
      injection heq with h2
      subst h2
      exact closeController_finInv ss ⟨hr, hnt, hcalls⟩
    · intro e ss2 heq
      rw [hs1] at heq
      simp at heq
  · refine ⟨?_, ?_, ?_⟩
    · intro ss2 heq
      rw [hs1] at heq
      simp at heq
    · intro ss2 heq
      rw [hs1] at heq
      simp at heq
    · intro e ss2 heq
      rw [hs1] at heq
      injection heq with h2 h3
      subst h3
      exact ⟨terminalLastOnly_of_noTerminal _ hnt, hcalls, fun _ => hnt⟩
  · refine ⟨?_, ?_, ?_⟩
    · intro ss2 heq
      rw [hs1] at heq
      simp at heq
    · intro ss2 heq
      rw [hs1] at heq
      simp at heq
    · intro e ss2 heq
      rw [hs1, ctrlError_readable ss (.js m) hr] at heq
      injection heq with h2 h3
      subst h3
      refine ⟨terminalLastOnly_append _ _ hnt, hcalls, ?_⟩
      intro hcontra
      simp at hcontra

/-- The inner boundary-extraction loop preserves the run invariants. -/
theorem whileLoop_inv (jparse : List Char → Option Json) (mode : StreamMode) :
    ∀ (buffer : List Char) (ss : SideState), LiveInv ss →
      (∀ b2 ss2, whileLoop jparse mode buffer ss = .needMore b2 ss2 → LiveInv ss2) ∧
      (∀ ss2, whileLoop jparse mode buffer ss = .finished ss2 → FinInv ss2) ∧
      (∀ e ss2, whileLoop jparse mode buffer ss = .crashed e ss2 → CrashInv ss2) := by
  have main : ∀ (n : Nat) (buffer : List Char) (ss : SideState), buffer.length = n →
      LiveInv ss →
      (∀ b2 ss2, whileLoop jparse mode buffer ss = .needMore b2 ss2 → LiveInv ss2) ∧
      (∀ ss2, whileLoop jparse mode buffer ss = .finished ss2 → FinInv ss2) ∧
      (∀ e ss2, whileLoop jparse mode buffer ss = .crashed e ss2 → CrashInv ss2) := by
    intro n
    induction n using Nat.strong_induction_on with
    | _ n ih =>
      intro buffer ss hlen hlive
      cases hfb : findBoundary buffer with
      | none =>
        by_cases hdone : bufferIsDone buffer = true
        · have heq : whileLoop jparse mode buffer ss = .finished (closeController ss) := by
            rw [whileLoop]
            split <;> simp_all
          refine ⟨?_, ?_, ?_⟩
          · intro b2 ss2 h2
            rw [heq] at h2
            simp at h2
          · intro ss2 h2
            rw [heq] at h2
            injection h2 with h3
            subst h3
            exact closeController_finInv ss hlive
          · intro e ss2 h2
            rw [heq] at h2
            simp at h2
        · have heq : whileLoop jparse mode buffer ss = .needMore buffer ss := by
            rw [whileLoop]
            split <;> simp_all
          refine ⟨?_, ?_, ?_⟩
          · intro b2 ss2 h2
            rw [heq] at h2
            injection h2 with h3 h4
            subst h4
            exact hlive
          · intro ss2 h2
            rw [heq] at h2
            simp at h2
          · intro e ss2 h2
            rw [heq] at h2
            simp at h2
      | some b =>
        by_cases hdone : bufferIsDone (buffer.drop (b + 2)) = true
        · have heq : whileLoop jparse mode buffer ss = .finished (closeController ss) := by
            rw [whileLoop]
            split <;> simp_all
          refine ⟨?_, ?_, ?_⟩
          · intro b2 ss2 h2
            rw [heq] at h2
            simp at h2
          · intro ss2 h2
            rw [heq] at h2
            injection h2 with h3
            subst h3
            exact closeController_finInv ss hlive
          · intro e ss2 h2
            rw [heq] at h2
            simp at h2
        · cases hhp : handleParsed jparse mode (jsTrim ((buffer.take b).drop 5)) ss with
          | next a =>
            have hlive2 : LiveInv a :=
              (handleParsed_inv jparse mode _ ss hlive).1 a hhp
            have heq : whileLoop jparse mode buffer ss =
                whileLoop jparse mode (buffer.drop (b + 2)) a := by
              rw [whileLoop]
              split <;> simp_all
            have hlt : (buffer.drop (b + 2)).length < n := by
              have hb2 := findBoundary_le hfb
              simp only [List.length_drop]
              omega
            have IH := ih _ hlt (buffer.drop (b + 2)) a rfl hlive2
            rw [heq]
            exact IH
          | finished a =>
            have hfin : FinInv a :=
              (handleParsed_inv jparse mode _ ss hlive).2.1 a hhp
            have heq : whileLoop jparse mode buffer ss = .finished a := by
              rw [whileLoop]
              split <;> simp_all
            refine ⟨?_, ?_, ?_⟩
            · intro b2 ss2 h2
              rw [heq] at h2
              simp at h2
            · intro ss2 h2
              rw [heq] at h2
              injection h2 with h3
              subst h3
              exact hfin
            · intro e ss2 h2
              rw [heq] at h2
              simp at h2
          | crashed e a =>
            have hcr : CrashInv a :=
              (handleParsed_inv jparse mode _ ss hlive).2.2 e a hhp
            have heq : whileLoop jparse mode buffer ss = .crashed e a := by
              rw [whileLoop]
              split <;> simp_all
            refine ⟨?_, ?_, ?_⟩
            · intro b2 ss2 h2
              rw [heq] at h2
              simp at h2
            · intro ss2 h2
              rw [heq] at h2
              simp at h2
            · intro e2 ss2 h2
              rw [heq] at h2
              injection h2 with h3 h4
              subst h4
              exact hcr
  intro buffer ss hlive
  exact main buffer.length buffer ss rfl hlive


/-- The chunk loop preserves the run invariants. -/
theorem mainLoop_inv (jparse : List Char → Option Json) (mode : StreamMode) :
    ∀ (chunks : List (List Char)) (buffer : List Char) (ss : SideState), LiveInv ss →
      (∀ ss2, mainLoop jparse mode chunks buffer ss = .finishedRun ss2 → FinInv ss2) ∧
      (∀ b2 ss2, mainLoop jparse mode chunks buffer ss = .exhausted b2 ss2 → LiveInv ss2) ∧
      (∀ e ss2, mainLoop jparse mode chunks buffer ss = .crashedRun e ss2 → CrashInv ss2) := by
  intro chunks
  induction chunks with
  | nil =>
    intro buffer ss hlive
    refine ⟨?_, ?_, ?_⟩
    · intro ss2 h2
      rw [mainLoop] at h2
      simp at h2
    · intro b2 ss2 h2
      rw [mainLoop] at h2
      injection h2 with h3 h4
      subst h4
      exact hlive
    · intro e ss2 h2
      rw [mainLoop] at h2
      simp at h2
  | cons chunk rest ih =>
    intro buffer ss hlive
    by_cases hdone : bufferIsDone (buffer ++ chunk) = true
    · have heq : mainLoop jparse mode (chunk :: rest) buffer ss =
          .finishedRun (closeController ss) := by
        rw [mainLoop]
        simp [hdone]
      refine ⟨?_, ?_, ?_⟩
      · intro ss2 h2
        rw [heq] at h2
        injection h2 with h3
        subst h3
        exact closeController_finInv ss hlive
      · intro b2 ss2 h2
        rw [heq] at h2
        simp at h2
      · intro e ss2 h2
        rw [heq] at h2
        simp at h2
    · cases hwl : whileLoop jparse mode (buffer ++ chunk) ss with
      | needMore b2 ss2 =>
        have hl2 : LiveInv ss2 :=
          (whileLoop_inv jparse mode (buffer ++ chunk) ss hlive).1 b2 ss2 hwl
        have heq : mainLoop jparse mode (chunk :: rest) buffer ss =
            mainLoop jparse mode rest b2 ss2 := by
          rw [mainLoop]
          simp [hdone, hwl]
        rw [heq]
        exact ih b2 ss2 hl2
      | finished ss2 =>
        have hf2 : FinInv ss2 :=
          (whileLoop_inv jparse mode (buffer ++ chunk) ss hlive).2.1 ss2 hwl
        have heq : mainLoop jparse mode (chunk :: rest) buffer ss = .finishedRun ss2 := by
          rw [mainLoop]
          simp [hdone, hwl]
        refine ⟨?_, ?_, ?_⟩
        · intro ss3 h2
          rw [heq] at h2
          injection h2 with h3
          subst h3
          exact hf2
        · intro b3 ss3 h2
          rw [heq] at h2
          simp at h2
        · intro e ss3 h2
          rw [heq] at h2
          simp at h2
      | crashed e ss2 =>
        have hc2 : CrashInv ss2 :=
          (whileLoop_inv jparse mode (buffer ++ chunk) ss hlive).2.2 e ss2 hwl
        have heq : mainLoop jparse mode (chunk :: rest) buffer ss = .crashedRun e ss2 := by
          rw [mainLoop]
          simp [hdone, hwl]
        refine ⟨?_, ?_, ?_⟩
        · intro ss3 h2
          rw [heq] at h2
          simp at h2
        · intro b3 ss3 h2
          rw [heq] at h2
          simp at h2
        · intro e2 ss3 h2
          rw [heq] at h2
          injection h2 with h3 h4
          subst h4
          exact hc2

/-- Run-level invariants of every `EventStream` run: terminals only in
last position; the hook runs exactly once on the DONE path and never
otherwise. -/
theorem eventStream_inv (jparse : List Char → Option Json)
    (options : OpenAIStreamOptions) (chunks : List (List Char)) :
    terminalLastOnly (EventStream jparse options chunks).side.signals ∧
    ((EventStream jparse options chunks).side.onDoneCalls = 1 ↔
      (EventStream jparse options chunks).endKind = .doneReturn) ∧
    (EventStream jparse options chunks).side.onDoneCalls ≤ 1 := by
  have hlive : LiveInv initialSide := ⟨rfl, noTerminal_nil, rfl⟩
  obtain ⟨hf, he, hc⟩ :=
    mainLoop_inv jparse (options.mode.getD .tokens) chunks [] initialSide hlive
  unfold EventStream
  dsimp only
  cases hml : mainLoop jparse (options.mode.getD .tokens) chunks [] initialSide with
  | finishedRun ss2 =>
    obtain ⟨htlo, hcalls⟩ := hf ss2 hml
    dsimp only
    refine ⟨htlo, ?_, by omega⟩
    simp [hcalls]
  | exhausted b2 ss2 =>
    obtain ⟨hr, hnt, hcalls⟩ := he b2 ss2 hml
    dsimp only
    refine ⟨terminalLastOnly_of_noTerminal _ hnt, ?_, by omega⟩
    constructor
    · intro h1
      rw [hcalls] at h1
      cases h1
    · intro h2
      simp at h2
  | crashedRun e ss2 =>
    obtain ⟨htlo, hcalls, hread⟩ := hc e ss2 hml
    dsimp only
    refine ⟨?_, ?_, ?_⟩
    · cases hst : ss2.ctrl.state with
      | readable =>
        rw [ctrlError_readable ss2 e hst]
        exact terminalLastOnly_append _ _ (hread hst)
      | closed =>
        rw [ctrlError_no_op ss2 e (by simp [hst])]
        exact htlo
      | errored e2 =>
        rw [ctrlError_no_op ss2 e (by simp [hst])]
        exact htlo
    · rw [ctrlError_onDoneCalls, hcalls]
      constructor
      · intro h1
        cases h1
      · intro h2
        simp at h2
    · rw [ctrlError_onDoneCalls, hcalls]
      omega

/-! ## Claim C6: no DATA after DONE or ERROR -/

/-- C6: in every `EventStream` run, a terminal signal (DONE or ERROR)
can only be the last signal of the trace — in particular no DATA frame
is ever produced after DONE or ERROR, and once an event carrying an
`error` field triggers the ERROR signal, nothing further (not even that
event's own payload, whose enqueue throws) is enqueued. -/
theorem eventStream_no_data_after_terminal (jparse : List Char → Option Json)
    (options : OpenAIStreamOptions) (chunks : List (List Char)) :
    terminalLastOnly (EventStream jparse options chunks).side.signals :=
  (eventStream_inv jparse options chunks).1

/-- C6 witness: the invariant instantiated on a concrete errored run
(an event with an `error` field followed by another data event). -/
theorem eventStream_no_data_after_terminal_witness :
    terminalLastOnly (EventStream jsonParse ⟨some .tokens⟩
      [("data: \x7b\"error\":\x7b\"message\":\"boom\"\x7d\x7d\n\n").data,
       ("data: \x7b\"x\":1\x7d\n\n").data]).side.signals :=
  eventStream_no_data_after_terminal jsonParse ⟨some .tokens⟩
    [("data: \x7b\"error\":\x7b\"message\":\"boom\"\x7d\x7d\n\n").data,
     ("data: \x7b\"x\":1\x7d\n\n").data]

/-! ## Claim C9: the completion hook and the guarded close -/

/-- C9 counterexample: a stream that ends without any termination
condition (one well-formed data event, then source exhaustion) never
closes the output and never runs `onDone` — the hook runs zero times,
not exactly once. -/
theorem eventStream_onDone_skipped_on_exhausted_source :
    EventStream jsonParse ⟨some .tokens⟩ [("data: \x7b\"x\":1\x7d\n\n").data] =
      ⟨⟨⟨[("\x7b\"x\":1\x7d").data], .readable⟩,
        [.data (("\x7b\"x\":1\x7d").data)], 0⟩, .sourceExhausted⟩ := by
  simp [EventStream, mainLoop, whileLoop, bufferIsDone, findBoundary, initialSide,
    handleParsed, jsonParse, parseValue, parseStringRest, parseMembers, parseElems,
    skipWs, isWs, jsTrim, isTrimWs, typeofIsObject, choicesBlock, jsGetOpt, jsGet,
    jsTruthy, jlookup, afterChoices, enqueueStep, ctrlEnqueue, ctrlError,
    closeController, lbrace, rbrace, escapeChar, digitsVal]

/-- C9 amended: whenever the framer reaches a termination condition (the
run ends through the DONE path), `onDone` runs exactly once, and it
never runs more than once on any path; the controller is closed by
`closeController` exactly when `desiredSize` is truthy or it already was
closed — never when already closed or errored. If the source is
exhausted without a termination condition, the hook does not run at
all. -/
theorem eventStream_onDone_once_on_done_path (jparse : List Char → Option Json)
    (options : OpenAIStreamOptions) (chunks : List (List Char)) :
    ((EventStream jparse options chunks).side.onDoneCalls = 1 ↔
      (EventStream jparse options chunks).endKind = .doneReturn) ∧
    (EventStream jparse options chunks).side.onDoneCalls ≤ 1 ∧
    (∀ ss : SideState,
      ((closeController ss).ctrl.state = .closed ↔
        truthyOptInt (desiredSize ss.ctrl) = true ∨ ss.ctrl.state = .closed)) :=
  ⟨(eventStream_inv jparse options chunks).2.1,
   (eventStream_inv jparse options chunks).2.2,
   closeController_closed_iff⟩

/-- C9 witness: on a concrete stream terminated by the sentinel, the
hook runs exactly once. -/
theorem eventStream_onDone_once_on_done_path_witness :
    (EventStream jsonParse ⟨some .tokens⟩ [("data: [DONE]").data]).side.onDoneCalls = 1 :=
  (eventStream_onDone_once_on_done_path jsonParse ⟨some .tokens⟩
      [("data: [DONE]").data]).1.mpr
    (by simp [EventStream, mainLoop, whileLoop, bufferIsDone, findBoundary, initialSide])

end OpenAIStreams
